import Mathlib

/-!
Verification of the netlify-golang-deploy core: shallow embedding of the
deploy orchestration pipeline (fingerprinting, site resolution, deploy
state polling, bounded-concurrency upload with retry) and proofs of the
specification's claims about it.

The embedding follows the current source variant (the `cli`-based one with
the `draft` flag, the `filter=all` site listing, the empty-page not-found
in `findSite`, and the go-retry Fibonacci/90s wrapper in `wrapUploadJob`).
Machine integers are modelled as `Nat` with explicit reduction modulo
`2^32` where Go's `uint32` arithmetic overflows.
-/

set_option maxHeartbeats 1000000
set_option maxRecDepth 100000

namespace NetlifyDeploy

/-- Go `uint32` truncation: reduce modulo `2^32`. -/
def w32 (x : Nat) : Nat := x % 4294967296

/-- 32-bit left rotation of a word already reduced below `2^32`. -/
def rotl (n x : Nat) : Nat := w32 (x <<< n) ||| (x >>> (32 - n))

/-- SHA-1 round constants (crypto/sha1). -/
def sha1K (t : Nat) : Nat :=
  if t < 20 then 1518500249
  else if t < 40 then 1859775393
  else if t < 60 then 2400959708
  else 3395469782

/-- SHA-1 round Boolean function; `b ^^^ 4294967295` is 32-bit complement. -/
def sha1F (t b c d : Nat) : Nat :=
  if t < 20 then (b &&& c) ||| ((b ^^^ 4294967295) &&& d)
  else if t < 40 then b ^^^ c ^^^ d
  else if t < 60 then (b &&& c) ||| (b &&& d) ||| (c &&& d)
  else b ^^^ c ^^^ d

/-- The five-word SHA-1 working state. -/
structure Sha1State where
  a : Nat
  b : Nat
  c : Nat
  d : Nat
  e : Nat
deriving Repr, DecidableEq

/-- One SHA-1 compression round. -/
def sha1Round (w : Array Nat) (st : Sha1State) (t : Nat) : Sha1State :=
  let temp := w32 (rotl 5 st.a + sha1F t st.b st.c st.d + st.e + sha1K t + w.getD t 0)
  ⟨temp, st.a, rotl 30 st.b, st.c, st.d⟩

/-- Message-schedule extension step for `16 ≤ t < 80`. -/
def sha1Extend (w : Array Nat) (t : Nat) : Array Nat :=
  w.push (rotl 1 (w.getD (t - 3) 0 ^^^ w.getD (t - 8) 0 ^^^ w.getD (t - 14) 0 ^^^ w.getD (t - 16) 0))

/-- Big-endian assembly of four bytes into a 32-bit word. -/
def bytesToWord (b0 b1 b2 b3 : Nat) : Nat := b0 * 16777216 + b1 * 65536 + b2 * 256 + b3

/-- The first 16 schedule words of a 64-byte chunk. -/
def chunkWords (chunk : List Nat) : Array Nat :=
  (List.range 16).foldl (fun w i =>
    w.push (bytesToWord (chunk.getD (4 * i) 0) (chunk.getD (4 * i + 1) 0)
      (chunk.getD (4 * i + 2) 0) (chunk.getD (4 * i + 3) 0))) #[]

/-- Process one 64-byte chunk. -/
def sha1Chunk (h : Sha1State) (chunk : List Nat) : Sha1State :=
  let w := (List.range 80).foldl (fun w t => if t < 16 then w else sha1Extend w t) (chunkWords chunk)
  let st := (List.range 80).foldl (sha1Round w) h
  ⟨w32 (h.a + st.a), w32 (h.b + st.b), w32 (h.c + st.c), w32 (h.d + st.d), w32 (h.e + st.e)⟩

/-- The 8-byte big-endian encoding of the 64-bit message bit length. -/
def lenBytes64 (n : Nat) : List Nat :=
  [n / 72057594037927936 % 256, n / 281474976710656 % 256, n / 1099511627776 % 256,
   n / 4294967296 % 256, n / 16777216 % 256, n / 65536 % 256, n / 256 % 256, n % 256]

/-- SHA-1 padding: `0x80`, zeros to 56 mod 64, then the bit length. -/
def sha1Pad (msg : List Nat) : List Nat :=
  msg ++ 128 :: (List.replicate ((119 - msg.length % 64) % 64) 0 ++ lenBytes64 (8 * msg.length))

/-- Split a byte list into 64-byte chunks; the fuel argument (at least the
list's length) makes the recursion structural. -/
def chunks64Aux : Nat → List Nat → List (List Nat)
  | 0, _ => []
  | _ + 1, [] => []
  | fuel + 1, b :: l => ((b :: l).take 64) :: chunks64Aux fuel ((b :: l).drop 64)

/-- Split a byte list into 64-byte chunks. -/
def chunks64 (l : List Nat) : List (List Nat) := chunks64Aux l.length l

/-- SHA-1 initial state. -/
def sha1Init : Sha1State := ⟨1732584193, 4023233417, 2562383102, 271733878, 3285377520⟩

/-- The five final SHA-1 words of a byte message. -/
def sha1Words (msg : List Nat) : Sha1State :=
  (chunks64 (sha1Pad msg)).foldl sha1Chunk sha1Init

/-- Big-endian byte decomposition of a 32-bit word. -/
def wordToBytes (w : Nat) : List Nat := [w / 16777216 % 256, w / 65536 % 256, w / 256 % 256, w % 256]

/-- The 20-byte SHA-1 digest of a byte message. -/
def sha1Bytes (msg : List Nat) : List Nat :=
  let h := sha1Words msg
  wordToBytes h.a ++ wordToBytes h.b ++ wordToBytes h.c ++ wordToBytes h.d ++ wordToBytes h.e

/-- Lowercase hexadecimal digit for `n < 16`. -/
def hexDigit (n : Nat) : Char := if n < 10 then Char.ofNat (48 + n) else Char.ofNat (87 + n)

/-- Two lowercase hex characters of one byte. -/
def byteToHex (b : Nat) : List Char := [hexDigit (b / 16 % 16), hexDigit (b % 16)]

/-- Go `fmt.Sprintf("%x", bytes)`: lowercase hex string of a byte list. -/
def bytesToHex (bs : List Nat) : String := ⟨bs.flatMap byteToHex⟩

/-- `mustGetSha1` (source): SHA-1 of the file's byte contents as lowercase hex.
The filesystem is modelled by handing the function the file's contents. -/
def mustGetSha1 (contents : List Nat) : String := bytesToHex (sha1Bytes contents)

/-- Go map assignment `m[k] = v`: overwrite the binding if present, else add. -/
def mapSet (m : List (String × β)) (k : String) (v : β) : List (String × β) :=
  if m.any (fun p => p.1 == k) then m.map (fun p => if p.1 == k then (k, v) else p)
  else m ++ [(k, v)]

/-- Go map read `m[k]` returning the zero value as `none` when absent. -/
def mapGet (m : List (String × β)) (k : String) : Option β :=
  (m.find? (fun p => p.1 == k)).map (fun p => p.2)

/-- A regular file seen by `filepath.Walk`: its path relative to the walked
root (the `filepath.Rel` result) and its byte contents. The list order is
the walk's deterministic lexical visiting order. -/
structure FsFile where
  rel : String
  contents : List Nat
deriving Repr, DecidableEq

/-- `shaData` (source): absolute filename and deploy URI of one file. -/
structure ShaData where
  realfilename : String
  uri : String
deriving Repr, DecidableEq

/-- One execution of the walk closure body in `filesInDirectory` (source):
`key = "/" + rel`; the forward map gets `mustGetSha1(path)` and the reverse
map is keyed by a second `mustGetSha1(path)` computation on the same file. -/
def walkStep (dir : String) (acc : List (String × String) × List (String × ShaData))
    (f : FsFile) : List (String × String) × List (String × ShaData) :=
  let path := dir ++ "/" ++ f.rel
  let key := "/" ++ f.rel
  (mapSet acc.1 key (mustGetSha1 f.contents),
   mapSet acc.2 (mustGetSha1 f.contents) ⟨path, key⟩)

/-- `filesInDirectory` (source): fold the walk closure over the files of
the directory in walk order, starting from two empty maps. -/
def filesInDirectory (dir : String) (fs : List FsFile) :
    List (String × String) × List (String × ShaData) :=
  fs.foldl (walkStep dir) ([], [])

/-- The walk variant described by the spec: compute the SHA-1 once per file
and reuse it for both maps. -/
def walkStepOnce (dir : String) (acc : List (String × String) × List (String × ShaData))
    (f : FsFile) : List (String × String) × List (String × ShaData) :=
  let path := dir ++ "/" ++ f.rel
  let key := "/" ++ f.rel
  let sha := mustGetSha1 f.contents
  (mapSet acc.1 key sha, mapSet acc.2 sha ⟨path, key⟩)

/-- `filesInDirectory` built from the compute-once walk step. -/
def filesInDirectoryOnce (dir : String) (fs : List FsFile) :
    List (String × String) × List (String × ShaData) :=
  fs.foldl (walkStepOnce dir) ([], [])

/-- Go `strings.Contains s pat`. -/
def strContains (s pat : String) : Bool :=
  (List.range (s.data.length + 1)).any (fun i => pat.data.isPrefixOf (s.data.drop i))

/-- The fields of a `netlify.Site` the program uses. -/
structure Site where
  id : String
  name : String
deriving Repr, DecidableEq

/-- The fields of a `netlify.Deploy` the program uses. -/
structure Deploy where
  id : String
  state : String
  deployURL : String
  required : List String
deriving Repr, DecidableEq

/-- The loop of `findSite` (source), fuel-indexed on the number of pages it
may still visit. `listSites page perPage filter` is the remote listing
oracle. `Except.ok none` models the source's `return nil, nil` not-found. -/
def findSiteGo (listSites : Nat → Nat → String → Except String (List Site))
    (siteName : String) : Nat → Nat → Except String (Option Site)
  | 0, _ => Except.error "fuel exhausted"
  | fuel + 1, page =>
    match listSites page 25 "all" with
    | Except.error e => Except.error ("Unable to get a list of sites: " ++ e)
    | Except.ok sites =>
      if sites.isEmpty then Except.ok none
      else
        match sites.find? (fun site => site.name == siteName) with
        | some site => Except.ok (some site)
        | none => findSiteGo listSites siteName fuel (page + 1)

/-- `findSite` (source): start the scan at page 1. -/
def findSite (listSites : Nat → Nat → String → Except String (List Site))
    (siteName : String) (fuel : Nat) : Except String (Option Site) :=
  findSiteGo listSites siteName fuel 1

/-- The loop of `getDeploy` (source), fuel-indexed; `fetch n` is the result
of the (n+1)-th `GetDeploy` call. On success it returns the snapshot plus
the list of the 1-second sleeps performed between fetches. -/
def getDeployGo (fetch : Nat → Except String Deploy) (wantedStatus : String) :
    Nat → Nat → Except String (Deploy × List Nat)
  | 0, _ => Except.error "fuel exhausted"
  | fuel + 1, n =>
    match fetch n with
    | Except.error e => Except.error ("Unable to check deploy: " ++ e)
    | Except.ok deploy =>
      if deploy.state == wantedStatus then Except.ok (deploy, List.replicate n 1)
      else if deploy.state == "ready" then Except.ok (deploy, List.replicate n 1)
      else getDeployGo fetch wantedStatus fuel (n + 1)

/-- `getDeploy` (source): poll from the first fetch. -/
def getDeploy (fetch : Nat → Except String Deploy) (wantedStatus : String)
    (fuel : Nat) : Except String (Deploy × List Nat) :=
  getDeployGo fetch wantedStatus fuel 0

/-- go-retry `NewFibonacci(5s)` state: the pair starts at `(base, 0)`;
`Next` returns `a + b` and steps the state to `(b, a + b)`, yielding the
delays 5, 5, 10, 15, 25, 40, 65, … seconds. -/
def fibNext (st : Nat × Nat) : Nat × (Nat × Nat) :=
  (st.1 + st.2, (st.2, st.1 + st.2))

/-- go-retry `WithMaxDuration(90s)`: stop (`none`) once `elapsed` reaches
90 seconds; otherwise draw the next Fibonacci delay, truncated to the time
remaining in the 90-second window. -/
def withMaxDuration90 (elapsed : Nat) (st : Nat × Nat) : Option (Nat × (Nat × Nat)) :=
  if 90 ≤ elapsed then none
  else
    let (val, st') := fibNext st
    some (if 90 - elapsed < val then 90 - elapsed else val, st')

/-- The GOAWAY check of `wrapUploadJob` (source): an upload error is marked
retryable iff its message contains the marker `GOAWAY`. -/
def isRetryableErr (e : String) : Bool := strContains e "GOAWAY"

/-- go-retry `retry.Do` over the Fibonacci/90s backoff, as invoked by
`wrapUploadJob`. `attempts n` is the outcome of the (n+1)-th
`UploadDeployFile` call (`none` = success). Returns the seconds-since-start
times of all upload attempts made, and the final outcome. -/
def retryTraceGo (attempts : Nat → Option String) :
    Nat → Nat × Nat → Nat → Nat → List Nat × Option String
  | 0, _, elapsed, _ => ([elapsed], some "fuel exhausted")
  | fuel + 1, st, elapsed, n =>
    match attempts n with
    | none => ([elapsed], none)
    | some e =>
      if isRetryableErr e then
        match withMaxDuration90 elapsed st with
        | none => ([elapsed], some e)
        | some (delay, st') =>
          let rest := retryTraceGo attempts fuel st' (elapsed + delay) (n + 1)
          (elapsed :: rest.1, rest.2)
      else ([elapsed], some e)

/-- `wrapUploadJob`'s returned closure (source): open the file, then run
the upload under retry; both error paths carry the source's wrap message.
The fuel 100 exceeds the at most 8 attempts the 90-second window allows. -/
def wrapUploadJob (openResult : Option String) (attempts : Nat → Option String) :
    List Nat × Option String :=
  match openResult with
  | some e => ([], some ("Unable to open file: " ++ e))
  | none =>
    let r := retryTraceGo attempts 100 (5, 0) 0 0
    (r.1, r.2.map (fun e => "Unable to upload file: " ++ e))

/-- The producer loop of `deploy` (source lines 348–351): for each digest
in `required`, index the reverse map and read the entry's fields. Go
performs no presence check, so a missing digest dereferences a nil
`*shaData`: modelled as `none` (the process panics). -/
def enqueueRequired (shaToFilename : List (String × ShaData)) :
    List String → Option (List ShaData)
  | [] => some []
  | sha :: rest =>
    match mapGet shaToFilename sha with
    | none => none
    | some entry => (enqueueRequired shaToFilename rest).map (fun js => entry :: js)

/-- Externally observable phases of one `deploy` run, in order. -/
inductive Event
  | walkDir (dir : String)
  | createDeploy (siteID : String) (title : String) (async : Bool) (branch : String)
      (draft : Bool) (files : List (String × String))
  | logReady (url : String)
  | pollDeploy (deployID : String) (wanted : String)
  | enqueue (realfilename uri : String)
  | uploadPhaseDone
deriving Repr, DecidableEq

/-- How one `deploy` run ends. `panicked` covers both the worker `panic`
on a failed job and the nil-map-entry dereference. -/
inductive Outcome
  | ok (deployURL : String)
  | err (msg : String)
  | panicked (msg : String)
deriving Repr, DecidableEq

/-- The remote service and filesystem a `deploy` run interacts with. -/
structure Env where
  listSites : Nat → Nat → String → Except String (List Site)
  walkErr : Option String
  fs : List FsFile
  createDeploy : String → String → Bool → String → Bool → List (String × String) →
    Except String Deploy
  fetchPrepared : Nat → Except String Deploy
  fetchReady : Nat → Except String Deploy
  runJob : ShaData → Option String

/-- The `config` the cli layer assembles for `deploy` (source). -/
structure Config where
  token : String
  site : String
  directory : String
  branch : String
  title : String
  queueSize : Nat
  draft : Bool

/-- The `deploy` orchestrator (source lines 278–368): resolve the site,
walk the directory, create the deploy (`async=true`, configured draft,
branch, title, and the forward map as `files`), log if already ready, poll
for `prepared`, enqueue one job per required digest, run the pool, poll for
`ready`. Returns the outcome and the trace of phases executed. -/
def deployRun (cfg : Config) (env : Env) (fuel : Nat) : Outcome × List Event :=
  match findSite env.listSites cfg.site fuel with
  | Except.error e => (Outcome.err ("Unable to find the site: " ++ e), [])
  | Except.ok none => (Outcome.err ("No site found for " ++ cfg.site), [])
  | Except.ok (some site) =>
    match env.walkErr with
    | some e => (Outcome.err ("Unable to walk directory: " ++ e), [Event.walkDir cfg.directory])
    | none =>
      let maps := filesInDirectory cfg.directory env.fs
      match env.createDeploy site.id cfg.title true cfg.branch cfg.draft maps.1 with
      | Except.error e =>
        (Outcome.err ("Unable to create deploy: " ++ e),
         [Event.walkDir cfg.directory,
          Event.createDeploy site.id cfg.title true cfg.branch cfg.draft maps.1])
      | Except.ok deployResp =>
        let evs0 := [Event.walkDir cfg.directory,
          Event.createDeploy site.id cfg.title true cfg.branch cfg.draft maps.1]
          ++ (if deployResp.state == "ready" then [Event.logReady deployResp.deployURL] else [])
        match getDeploy env.fetchPrepared "prepared" fuel with
        | Except.error e =>
          (Outcome.err ("Unable to get deploy: " ++ e),
           evs0 ++ [Event.pollDeploy deployResp.id "prepared"])
        | Except.ok (preparedDeploy, _) =>
          let evs1 := evs0 ++ [Event.pollDeploy deployResp.id "prepared"]
          match enqueueRequired maps.2 preparedDeploy.required with
          | none =>
            (Outcome.panicked "runtime error: invalid memory address or nil pointer dereference",
             evs1)
          | some jobs =>
            let evs2 := evs1 ++ jobs.map (fun j => Event.enqueue j.realfilename j.uri)
            match jobs.findSome? env.runJob with
            | some e => (Outcome.panicked e, evs2)
            | none =>
              let evs3 := evs2 ++ [Event.uploadPhaseDone]
              match getDeploy env.fetchReady "ready" fuel with
              | Except.error e =>
                (Outcome.err ("finish deployment: " ++ e),
                 evs3 ++ [Event.pollDeploy deployResp.id "ready"])
              | Except.ok _ =>
                (Outcome.ok deployResp.deployURL,
                 evs3 ++ [Event.pollDeploy deployResp.id "ready"])

/-! ### The upload pool as a transition system (source lines 329–355) -/

/-- Status of one upload worker goroutine. -/
inductive WStatus
  | idle
  | busy (job : ShaData)
  | done
deriving Repr, DecidableEq

/-- State of the bounded upload pool: the buffered channel's contents,
whether the channel was closed, the statuses of the spawned workers, the
jobs the producer has yet to enqueue, and whether the orchestrator has
passed `wg.Wait()` (after which it polls for `ready`). -/
structure PoolState where
  queue : List ShaData
  closed : Bool
  workers : List WStatus
  toEnqueue : List ShaData
  afterWait : Bool
deriving Repr, DecidableEq

/-- Initial pool state: `make(chan uploadQueueAction, cfg.QueueSize)` is
empty, the `for i := 0; i < cfg.QueueSize; i++` loop has spawned exactly
`queueSize` idle workers, every job is still with the producer. -/
def poolInit (queueSize : Nat) (jobs : List ShaData) : PoolState :=
  ⟨[], false, List.replicate queueSize WStatus.idle, jobs, false⟩

/-- Interleaved small-step semantics of the pool, with channel capacity
`cap`: the producer may send only while the buffer holds fewer than `cap`
jobs; a worker receives from the buffer's front, runs jobs one at a time,
and exits its `range` loop once the channel is closed and drained; the
orchestrator passes `wg.Wait()` only once every worker has exited. -/
inductive PoolStep (cap : Nat) : PoolState → PoolState → Prop
  | send (q : List ShaData) (ws : List WStatus) (j : ShaData) (js : List ShaData)
      (hq : q.length < cap) :
      PoolStep cap ⟨q, false, ws, j :: js, false⟩ ⟨q ++ [j], false, ws, js, false⟩
  | closeChan (q : List ShaData) (ws : List WStatus) :
      PoolStep cap ⟨q, false, ws, [], false⟩ ⟨q, true, ws, [], false⟩
  | take (q : List ShaData) (c : Bool) (ws : List WStatus) (js : List ShaData)
      (j : ShaData) (i : Nat) (hi : ws.get? i = some WStatus.idle) :
      PoolStep cap ⟨j :: q, c, ws, js, false⟩ ⟨q, c, ws.set i (WStatus.busy j), js, false⟩
  | finish (q : List ShaData) (c : Bool) (ws : List WStatus) (js : List ShaData)
      (j : ShaData) (i : Nat) (hi : ws.get? i = some (WStatus.busy j)) :
      PoolStep cap ⟨q, c, ws, js, false⟩ ⟨q, c, ws.set i WStatus.idle, js, false⟩
  | exitWorker (ws : List WStatus) (js : List ShaData) (i : Nat)
      (hi : ws.get? i = some WStatus.idle) :
      PoolStep cap ⟨[], true, ws, js, false⟩ ⟨[], true, ws.set i WStatus.done, js, false⟩
  | waitDone (q : List ShaData) (ws : List WStatus) (js : List ShaData)
      (hall : ∀ w ∈ ws, w = WStatus.done) :
      PoolStep cap ⟨q, true, ws, js, false⟩ ⟨q, true, ws, js, true⟩

/-- Reachability from a pool state by interleaved steps. -/
inductive PoolReach (cap : Nat) (init : PoolState) : PoolState → Prop
  | refl : PoolReach cap init init
  | step {s t : PoolState} : PoolReach cap init s → PoolStep cap s t → PoolReach cap init t

/-- A worker is mid-upload. -/
def isBusy : WStatus → Bool
  | WStatus.busy _ => true
  | _ => false

/-- Number of in-flight uploads: workers currently executing a job. -/
def inFlight (s : PoolState) : Nat := (s.workers.filter isBusy).length

/-- The last file of `fs` (in walk order) whose digest is `d`. -/
def lastWithDigest (fs : List FsFile) (d : String) : Option FsFile :=
  fs.reverse.find? (fun f => mustGetSha1 f.contents == d)

/-- The last file of `fs` (in walk order) whose deploy key is `k`. -/
def lastWithKey (fs : List FsFile) (k : String) : Option FsFile :=
  fs.reverse.find? (fun f => "/" ++ f.rel == k)

/-- A lowercase hexadecimal character. -/
def isLowerHexChar (c : Char) : Bool := ('0' ≤ c && c ≤ '9') || ('a' ≤ c && c ≤ 'f')

/-- Decidable equality for `Except`, so concrete oracle results can be
checked by `decide`. -/
instance {α β : Type} [DecidableEq α] [DecidableEq β] : DecidableEq (Except α β) :=
  fun a b =>
    match a, b with
    | Except.error x, Except.error y =>
      if h : x = y then Decidable.isTrue (by rw [h])
      else Decidable.isFalse (fun hc => h (by injection hc))
    | Except.error _, Except.ok _ => Decidable.isFalse (fun hc => Except.noConfusion hc)
    | Except.ok _, Except.error _ => Decidable.isFalse (fun hc => Except.noConfusion hc)
    | Except.ok x, Except.ok y =>
      if h : x = y then Decidable.isTrue (by rw [h])
      else Decidable.isFalse (fun hc => h (by injection hc))

/-! ### Concrete fixtures used to exercise the definitions -/

/-- A listing oracle: page 1 holds two sites, later pages are empty. -/
def listSitesW : Nat → Nat → String → Except String (List Site) :=
  fun page _ _ =>
    if page = 1 then Except.ok [Site.mk "i1" "alpha", Site.mk "i2" "beta"]
    else Except.ok []

/-- A listing oracle whose first page is empty. -/
def listSitesEmpty : Nat → Nat → String → Except String (List Site) :=
  fun _ _ _ => Except.ok []

/-- A fetch oracle: two `uploading` snapshots, then `prepared`. -/
def fetchW : Nat → Except String Deploy :=
  fun n => if n < 2 then Except.ok (Deploy.mk "d1" "uploading" "u" [])
    else Except.ok (Deploy.mk "d1" "prepared" "u" [])

/-- A fetch oracle that always answers `ready`. -/
def fetchReadyW : Nat → Except String Deploy :=
  fun _ => Except.ok (Deploy.mk "d1" "ready" "https://x" [])

/-- A sample configuration. -/
def cfgW : Config := ⟨"tok", "mysite", "public", "alias", "title", 5, true⟩

/-- An environment whose site listing starts with an empty page. -/
def envNotFound : Env :=
  ⟨listSitesEmpty, none, [], fun _ _ _ _ _ _ => Except.error "unused",
   fun _ => Except.error "unused", fun _ => Except.error "unused", fun _ => none⟩

/-- An environment over an empty directory whose prepared deploy requires a
digest the walk never produced. -/
def envMissingDigest : Env :=
  ⟨(fun page _ _ => if page = 1 then Except.ok [Site.mk "i9" "mysite"] else Except.ok []),
   none, [],
   (fun _ _ _ _ _ _ => Except.ok (Deploy.mk "d9" "uploading" "https://x" [])),
   (fun _ => Except.ok (Deploy.mk "d9" "prepared" "https://x" ["deadbeef"])),
   (fun _ => Except.ok (Deploy.mk "d9" "ready" "https://x" [])),
   (fun _ => none)⟩

/-- An environment whose create response is already `ready` and whose
prepared snapshot requires nothing. -/
def envReadyCreate : Env :=
  ⟨(fun page _ _ => if page = 1 then Except.ok [Site.mk "i9" "mysite"] else Except.ok []),
   none, [],
   (fun _ _ _ _ _ _ => Except.ok (Deploy.mk "d9" "ready" "https://x" [])),
   (fun _ => Except.ok (Deploy.mk "d9" "prepared" "https://x" [])),
   (fun _ => Except.ok (Deploy.mk "d9" "ready" "https://x" [])),
   (fun _ => none)⟩

/-- Upload attempts that always fail with a non-GOAWAY transport error. -/
def attemptsRefused : Nat → Option String :=
  fun _ => some "connection refused"

/-! ### Helper lemmas about the Go-map model -/

theorem find?_map_overwrite_ne {β : Type} (m : List (String × β)) (k k' : String) (v : β)
    (hne : k' ≠ k) :
    (m.map (fun p => if p.1 == k then (k, v) else p)).find? (fun p => p.1 == k') =
      m.find? (fun p => p.1 == k') := by
  have hkk' : (k == k') = false := beq_eq_false_iff_ne.mpr (Ne.symm hne)
  induction m with
  | nil => rfl
  | cons a m ih =>
    rw [List.map_cons]
    by_cases h : a.1 = k
    · have h1 : (a.1 == k) = true := beq_iff_eq.mpr h
      have h2 : (a.1 == k') = false := beq_eq_false_iff_ne.mpr (h ▸ Ne.symm hne)
      rw [List.find?_cons, List.find?_cons]
      simp only [h1, if_true, h2, hkk']
      exact ih
    · have h1 : (a.1 == k) = false := beq_eq_false_iff_ne.mpr h
      rw [List.find?_cons, List.find?_cons]
      simp only [h1, Bool.false_eq_true, if_false]
      cases hak : (a.1 == k') with
      | true => rfl
      | false => exact ih

theorem find?_map_overwrite_self {β : Type} (m : List (String × β)) (k : String) (v : β)
    (hany : m.any (fun p => p.1 == k) = true) :
    (m.map (fun p => if p.1 == k then (k, v) else p)).find? (fun p => p.1 == k) =
      some (k, v) := by
  induction m with
  | nil => simp at hany
  | cons a m ih =>
    rw [List.map_cons]
    by_cases h : a.1 = k
    · have h1 : (a.1 == k) = true := beq_iff_eq.mpr h
      rw [List.find?_cons]
      simp [h1]
    · have h1 : (a.1 == k) = false := beq_eq_false_iff_ne.mpr h
      rw [List.any_cons] at hany
      simp only [h1, Bool.false_or] at hany
      rw [List.find?_cons]
      simp only [h1, Bool.false_eq_true, if_false]
      exact ih hany

theorem find?_single_key {β : Type} (k k' : String) (v : β) :
    (List.find? (fun p => p.1 == k') [(k, v)]) =
      if k' = k then some (k, v) else none := by
  by_cases h : k' = k
  · have h1 : (k == k') = true := beq_iff_eq.mpr h.symm
    rw [List.find?_cons]
    simp [h1, h]
  · have h1 : (k == k') = false := beq_eq_false_iff_ne.mpr (Ne.symm h)
    rw [List.find?_cons]
    simp [h1, h]

theorem mapGet_mapSet {β : Type} (m : List (String × β)) (k k' : String) (v : β) :
    mapGet (mapSet m k v) k' = if k' = k then some v else mapGet m k' := by
  unfold mapSet mapGet
  by_cases hany : m.any (fun p => p.1 == k) = true
  · simp only [hany, if_true]
    by_cases h : k' = k
    · subst h
      rw [find?_map_overwrite_self m k' v hany]
      simp
    · rw [find?_map_overwrite_ne m k k' v h]
      simp [h]
  · simp only [Bool.not_eq_true] at hany
    simp only [hany, Bool.false_eq_true, if_false]
    rw [List.find?_append, find?_single_key]
    by_cases h : k' = k
    · subst h
      have hnone : m.find? (fun p => p.1 == k') = none := by
        rw [List.find?_eq_none]
        intro x hx
        exact fun hpx => (List.any_eq_false.mp hany x hx) hpx
      simp [hnone]
    · simp [h, Option.or_none]

theorem mapGet_mem {β : Type} (m : List (String × β)) (k : String) (v : β)
    (h : mapGet m k = some v) : (k, v) ∈ m := by
  unfold mapGet at h
  cases hf : m.find? (fun p => p.1 == k) with
  | none => rw [hf] at h; simp at h
  | some p =>
    rw [hf] at h
    have hv : p.2 = v := by simpa using h
    have hmem := List.mem_of_find?_eq_some hf
    have hpred := List.find?_some hf
    simp only [beq_iff_eq] at hpred
    have hp : p = (k, v) := by
      cases p
      simp_all
    rw [hp] at hmem
    exact hmem

/-! ### Helper lemmas about the walk -/

theorem walk_rev_lookup (dir : String) (fs : List FsFile)
    (acc : List (String × String) × List (String × ShaData)) (d : String) :
    mapGet (fs.foldl (walkStep dir) acc).2 d =
      match lastWithDigest fs d with
      | some f => some ⟨dir ++ "/" ++ f.rel, "/" ++ f.rel⟩
      | none => mapGet acc.2 d := by
  induction fs generalizing acc with
  | nil => rfl
  | cons f rest ih =>
    rw [List.foldl_cons, ih]
    unfold lastWithDigest
    rw [List.reverse_cons, List.find?_append, List.find?_cons]
    cases hrest : List.find? (fun g => mustGetSha1 g.contents == d) rest.reverse with
    | some g => rfl
    | none =>
      cases hp : (mustGetSha1 f.contents == d) with
      | true =>
        have hd : d = mustGetSha1 f.contents := (beq_iff_eq.mp hp).symm
        simp only [Option.none_or]
        unfold walkStep
        rw [mapGet_mapSet]
        simp [hd]
      | false =>
        have hd : d ≠ mustGetSha1 f.contents := by
          intro hc
          rw [beq_iff_eq.mpr hc.symm] at hp
          cases hp
        simp only [Option.none_or, List.find?_nil]
        unfold walkStep
        rw [mapGet_mapSet]
        simp [hd]

theorem walk_fwd_lookup (dir : String) (fs : List FsFile)
    (acc : List (String × String) × List (String × ShaData)) (k : String) :
    mapGet (fs.foldl (walkStep dir) acc).1 k =
      match lastWithKey fs k with
      | some f => some (mustGetSha1 f.contents)
      | none => mapGet acc.1 k := by
  induction fs generalizing acc with
  | nil => rfl
  | cons f rest ih =>
    rw [List.foldl_cons, ih]
    unfold lastWithKey
    rw [List.reverse_cons, List.find?_append, List.find?_cons]
    cases hrest : List.find? (fun g => "/" ++ g.rel == k) rest.reverse with
    | some g => rfl
    | none =>
      cases hp : ("/" ++ f.rel == k) with
      | true =>
        have hd : k = "/" ++ f.rel := (beq_iff_eq.mp hp).symm
        simp only [Option.none_or]
        unfold walkStep
        rw [mapGet_mapSet]
        simp [hd]
      | false =>
        have hd : k ≠ "/" ++ f.rel := by
          intro hc
          rw [beq_iff_eq.mpr hc.symm] at hp
          cases hp
        simp only [Option.none_or, List.find?_nil]
        unfold walkStep
        rw [mapGet_mapSet]
        simp [hd]

/-! ### Digest shape lemmas -/

theorem isLowerHexChar_hexDigit : ∀ n, n < 16 → isLowerHexChar (hexDigit n) = true := by decide

theorem length_flatMap_byteToHex (bs : List Nat) :
    (bs.flatMap byteToHex).length = 2 * bs.length := by
  induction bs with
  | nil => rfl
  | cons b bs ih =>
    rw [List.flatMap_cons, List.length_append, ih]
    simp [byteToHex]
    omega

theorem length_sha1Bytes (c : List Nat) : (sha1Bytes c).length = 20 := by
  simp [sha1Bytes, wordToBytes]

theorem length_mustGetSha1 (c : List Nat) : (mustGetSha1 c).length = 40 := by
  show ((sha1Bytes c).flatMap byteToHex).length = 40
  rw [length_flatMap_byteToHex, length_sha1Bytes]

theorem lowerHex_mustGetSha1 (c : List Nat) :
    (mustGetSha1 c).data.all isLowerHexChar = true := by
  rw [List.all_eq_true]
  intro x hx
  have hx' : x ∈ (sha1Bytes c).flatMap byteToHex := hx
  rw [List.mem_flatMap] at hx'
  obtain ⟨b, _, hxb⟩ := hx'
  unfold byteToHex at hxb
  rcases List.mem_pair.mp hxb with h | h
  · rw [h]
    exact isLowerHexChar_hexDigit _ (Nat.mod_lt _ (by norm_num))
  · rw [h]
    exact isLowerHexChar_hexDigit _ (Nat.mod_lt _ (by norm_num))

/-! ### Key-uniqueness lemmas for the walk maps -/

theorem slash_inj {a b : String} (h : ("/" ++ a : String) = "/" ++ b) : a = b := by
  have hd := congrArg String.data h
  rw [String.data_append, String.data_append] at hd
  exact String.ext (List.append_cancel_left hd)

theorem slash_beq (a b : String) : (("/" ++ a : String) == "/" ++ b) = (a == b) := by
  by_cases h : a = b
  · rw [h, beq_self_eq_true, beq_self_eq_true]
  · have h1 : (a == b) = false := beq_eq_false_iff_ne.mpr h
    have h2 : (("/" ++ a : String) == "/" ++ b) = false :=
      beq_eq_false_iff_ne.mpr (fun hc => h (slash_inj hc))
    rw [h1, h2]

theorem find?_key_of_nodup (l : List FsFile) (f : FsFile)
    (hn : (l.map FsFile.rel).Nodup) (hf : f ∈ l) :
    l.find? (fun g => "/" ++ g.rel == "/" ++ f.rel) = some f := by
  induction l with
  | nil => cases hf
  | cons a tl ih =>
    rw [List.map_cons, List.nodup_cons] at hn
    cases List.mem_cons.mp hf with
    | inl h =>
      subst h
      exact List.find?_cons_of_pos _ (beq_self_eq_true _)
    | inr h =>
      have hne : a.rel ≠ f.rel := by
        intro hc
        exact hn.1 (hc ▸ List.mem_map_of_mem FsFile.rel h)
      rw [List.find?_cons_of_neg _ (by rw [slash_beq]; simp [hne])]
      exact ih hn.2 h

theorem keys_mapSet_overwrite {β : Type} (m : List (String × β)) (k : String) (v : β)
    (hany : m.any (fun p => p.1 == k) = true) :
    (mapSet m k v).map Prod.fst = m.map Prod.fst := by
  unfold mapSet
  simp only [hany, if_true]
  rw [List.map_map]
  apply List.map_congr_left
  intro p _
  by_cases h : p.1 = k
  · simp [h]
  · simp [h]

theorem keys_mapSet_new {β : Type} (m : List (String × β)) (k : String) (v : β)
    (hany : m.any (fun p => p.1 == k) = false) :
    (mapSet m k v).map Prod.fst = m.map Prod.fst ++ [k] := by
  unfold mapSet
  simp [hany]

theorem nodup_keys_mapSet {β : Type} (m : List (String × β)) (k : String) (v : β)
    (hm : (m.map Prod.fst).Nodup) : ((mapSet m k v).map Prod.fst).Nodup := by
  cases hany : m.any (fun p => p.1 == k) with
  | true =>
    rw [keys_mapSet_overwrite m k v hany]
    exact hm
  | false =>
    rw [keys_mapSet_new m k v hany, List.nodup_append]
    refine ⟨hm, List.nodup_singleton k, ?_⟩
    intro x hx hx2
    rw [List.mem_singleton] at hx2
    subst hx2
    rw [List.mem_map] at hx
    obtain ⟨p, hp, hpk⟩ := hx
    apply List.any_eq_false.mp hany p hp
    rw [hpk]
    exact beq_self_eq_true x

theorem walk_keys_nodup (dir : String) (fs : List FsFile)
    (acc : List (String × String) × List (String × ShaData))
    (h2 : (acc.2.map Prod.fst).Nodup) :
    ((fs.foldl (walkStep dir) acc).2.map Prod.fst).Nodup := by
  induction fs generalizing acc with
  | nil => exact h2
  | cons f rest ih =>
    rw [List.foldl_cons]
    exact ih _ (nodup_keys_mapSet _ _ _ h2)

theorem count_key_eq_one {β : Type} (m : List (String × β)) (d : String) (e : β)
    (hn : (m.map Prod.fst).Nodup) (h : mapGet m d = some e) :
    (m.filter (fun p => p.1 == d)).length = 1 := by
  have h1 : List.countP (fun p => p.1 == d) m = (m.filter (fun p => p.1 == d)).length :=
    List.countP_eq_length_filter _ _
  have h2 : List.count d (m.map Prod.fst) = List.countP (fun p => p.1 == d) m := by
    rw [List.count_eq_countP, List.countP_map]
    rfl
  have hle : List.count d (m.map Prod.fst) ≤ 1 := List.nodup_iff_count_le_one.mp hn d
  have hmem : d ∈ m.map Prod.fst := List.mem_map_of_mem Prod.fst (mapGet_mem m d e h)
  have hge : 0 < List.count d (m.map Prod.fst) := List.count_pos_iff.mpr hmem
  omega

/-! ### Step lemmas for the retry loop -/

theorem retryTraceGo_success (attempts : Nat → Option String) (fuel : Nat) (st : Nat × Nat)
    (elapsed n : Nat) (h : attempts n = none) :
    retryTraceGo attempts (fuel + 1) st elapsed n = ([elapsed], none) := by
  simp [retryTraceGo, h]

theorem retryTraceGo_nonretryable (attempts : Nat → Option String) (fuel : Nat)
    (st : Nat × Nat) (elapsed n : Nat) (e : String)
    (ha : attempts n = some e) (he : isRetryableErr e = false) :
    retryTraceGo attempts (fuel + 1) st elapsed n = ([elapsed], some e) := by
  simp [retryTraceGo, ha, he]

theorem retryTraceGo_stop (attempts : Nat → Option String) (fuel : Nat)
    (st : Nat × Nat) (elapsed n : Nat) (e : String)
    (ha : attempts n = some e) (he : isRetryableErr e = true) (hel : 90 ≤ elapsed) :
    retryTraceGo attempts (fuel + 1) st elapsed n = ([elapsed], some e) := by
  simp [retryTraceGo, ha, he, withMaxDuration90, hel]

theorem retryTraceGo_retry (attempts : Nat → Option String) (fuel : Nat)
    (st : Nat × Nat) (elapsed n : Nat) (e : String)
    (ha : attempts n = some e) (he : isRetryableErr e = true) (hel : elapsed < 90) :
    retryTraceGo attempts (fuel + 1) st elapsed n =
      (elapsed :: (retryTraceGo attempts fuel (st.2, st.1 + st.2)
        (elapsed + if 90 - elapsed < st.1 + st.2 then 90 - elapsed else st.1 + st.2)
        (n + 1)).1,
       (retryTraceGo attempts fuel (st.2, st.1 + st.2)
        (elapsed + if 90 - elapsed < st.1 + st.2 then 90 - elapsed else st.1 + st.2)
        (n + 1)).2) := by
  have hn : ¬(90 ≤ elapsed) := Nat.not_le.mpr hel
  simp [retryTraceGo, ha, he, withMaxDuration90, hn, fibNext]

theorem retryTraceGo_head (attempts : Nat → Option String) (fuel : Nat) (st : Nat × Nat)
    (elapsed n : Nat) :
    ∃ ts, (retryTraceGo attempts fuel st elapsed n).1 = elapsed :: ts := by
  cases fuel with
  | zero => exact ⟨[], rfl⟩
  | succ fuel =>
    cases ha : attempts n with
    | none => exact ⟨[], by rw [retryTraceGo_success attempts fuel st elapsed n ha]⟩
    | some e =>
      cases he : isRetryableErr e with
      | false => exact ⟨[], by rw [retryTraceGo_nonretryable attempts fuel st elapsed n e ha he]⟩
      | true =>
        by_cases hel : 90 ≤ elapsed
        · exact ⟨[], by rw [retryTraceGo_stop attempts fuel st elapsed n e ha he hel]⟩
        · exact ⟨_, by rw [retryTraceGo_retry attempts fuel st elapsed n e ha he (Nat.not_le.mp hel)]⟩

/-! ### Claim theorems -/

/-- C9: computing the SHA-1 digest once per walked file and reusing it for
the forward-map value and the reverse-map key produces exactly the same
pair of maps as the source's computing it twice; the two walk variants are
extensionally equal (the digest function is deterministic). -/
theorem filesInDirectory_computeOnce_eq (dir : String) (fs : List FsFile) :
    filesInDirectory dir fs = filesInDirectoryOnce dir fs := rfl

/-- C2: the site resolver starts at page 1 with page size 25, scans pages
linearly, propagates listing errors, returns the first site whose name
equals the requested name, and terminates with a not-found result (not an
error) on the first empty page. -/
theorem findSite_spec (listSites : Nat → Nat → String → Except String (List Site))
    (siteName : String) :
    (∀ fuel, findSite listSites siteName fuel = findSiteGo listSites siteName fuel 1) ∧
    (∀ fuel page e, listSites page 25 "all" = Except.error e →
      findSiteGo listSites siteName (fuel + 1) page =
        Except.error ("Unable to get a list of sites: " ++ e)) ∧
    (∀ fuel page, listSites page 25 "all" = Except.ok [] →
      findSiteGo listSites siteName (fuel + 1) page = Except.ok none) ∧
    (∀ fuel page sites site, listSites page 25 "all" = Except.ok sites →
      sites.find? (fun s => s.name == siteName) = some site →
      findSiteGo listSites siteName (fuel + 1) page = Except.ok (some site)) ∧
    (∀ fuel page sites, listSites page 25 "all" = Except.ok sites → sites ≠ [] →
      sites.find? (fun s => s.name == siteName) = none →
      findSiteGo listSites siteName (fuel + 1) page =
        findSiteGo listSites siteName fuel (page + 1)) ∧
    (∀ fuel page s, findSiteGo listSites siteName fuel page = Except.ok (some s) →
      s.name = siteName) := by
  refine ⟨fun _ => rfl, ?_, ?_, ?_, ?_, ?_⟩
  · intro fuel page e h
    simp [findSiteGo, h]
  · intro fuel page h
    simp [findSiteGo, h]
  · intro fuel page sites site h hf
    cases sites with
    | nil => simp at hf
    | cons a l => simp [findSiteGo, h, hf]
  · intro fuel page sites h hne hf
    cases sites with
    | nil => exact absurd rfl hne
    | cons a l => simp [findSiteGo, h, hf]
  · intro fuel
    induction fuel with
    | zero => intro page s h; simp [findSiteGo] at h
    | succ fuel ih =>
      intro page s h
      cases hls : listSites page 25 "all" with
      | error e => simp [findSiteGo, hls] at h
      | ok sites =>
        cases sites with
        | nil => simp [findSiteGo, hls] at h
        | cons a l =>
          cases hf : (a :: l).find? (fun st => st.name == siteName) with
          | some site =>
            simp [findSiteGo, hls, hf] at h
            have hp := List.find?_some hf
            rw [beq_iff_eq] at hp
            rw [← h]
            exact hp
          | none =>
            simp [findSiteGo, hls, hf] at h
            exact ih (page + 1) s h

/-- Witness for C2: the resolver finds the site named `beta` on page 1. -/
theorem findSite_spec_witness :
    listSitesW 1 25 "all" = Except.ok [Site.mk "i1" "alpha", Site.mk "i2" "beta"] ∧
    [Site.mk "i1" "alpha", Site.mk "i2" "beta"].find? (fun s => s.name == "beta") =
      some (Site.mk "i2" "beta") ∧
    findSiteGo listSitesW "beta" (3 + 1) 1 = Except.ok (some (Site.mk "i2" "beta")) :=
  ⟨by decide, by decide,
   (findSite_spec listSitesW "beta").2.2.2.1 3 1
     [Site.mk "i1" "alpha", Site.mk "i2" "beta"] (Site.mk "i2" "beta")
     (by decide) (by decide)⟩

/-- C5: after a completed walk, every value of the path→digest map is a key
of the digest→entry map, every key of the path→digest map begins with "/",
and every digest is a lowercase hexadecimal string of length 40, namely the
SHA-1 of the byte contents of a walked file. -/
theorem filesInDirectory_invariants (dir : String) (fs : List FsFile) (k d : String)
    (h : mapGet (filesInDirectory dir fs).1 k = some d) :
    (∃ e, mapGet (filesInDirectory dir fs).2 d = some e) ∧
    k.data.head? = some '/' ∧
    d.length = 40 ∧
    d.data.all isLowerHexChar = true ∧
    ∃ f ∈ fs, k = "/" ++ f.rel ∧ d = mustGetSha1 f.contents := by
  unfold filesInDirectory at h
  rw [walk_fwd_lookup] at h
  cases hlast : lastWithKey fs k with
  | none =>
    rw [hlast] at h
    simp [mapGet] at h
  | some f =>
    rw [hlast] at h
    have hd : d = mustGetSha1 f.contents := (Option.some.inj h).symm
    unfold lastWithKey at hlast
    have hmem : f ∈ fs := List.mem_reverse.mp (List.mem_of_find?_eq_some hlast)
    have hk : k = "/" ++ f.rel := by
      have hp := List.find?_some hlast
      rw [beq_iff_eq] at hp
      exact hp.symm
    refine ⟨?_, ?_, ?_, ?_, ⟨f, hmem, hk, hd⟩⟩
    · unfold filesInDirectory
      rw [walk_rev_lookup]
      cases hfd : lastWithDigest fs d with
      | some g => exact ⟨⟨dir ++ "/" ++ g.rel, "/" ++ g.rel⟩, rfl⟩
      | none =>
        exfalso
        unfold lastWithDigest at hfd
        apply List.find?_eq_none.mp hfd f (List.mem_reverse.mpr hmem)
        rw [hd]
        exact beq_self_eq_true _
    · rw [hk, String.data_append]
      rfl
    · rw [hd]
      exact length_mustGetSha1 _
    · rw [hd]
      exact lowerHex_mustGetSha1 _

/-- Witness for C5: a one-file directory; the digest of the empty file is
the SHA-1 of the empty byte string and all invariants hold. -/
theorem filesInDirectory_invariants_witness :
    mapGet (filesInDirectory "public" [FsFile.mk "index.html" []]).1 "/index.html" =
      some "da39a3ee5e6b4b0d3255bfef95601890afd80709" ∧
    ((∃ e, mapGet (filesInDirectory "public" [FsFile.mk "index.html" []]).2
        "da39a3ee5e6b4b0d3255bfef95601890afd80709" = some e) ∧
      ("/index.html" : String).data.head? = some '/' ∧
      ("da39a3ee5e6b4b0d3255bfef95601890afd80709" : String).length = 40 ∧
      ("da39a3ee5e6b4b0d3255bfef95601890afd80709" : String).data.all isLowerHexChar = true ∧
      ∃ f ∈ [FsFile.mk "index.html" []], "/index.html" = "/" ++ f.rel ∧
        "da39a3ee5e6b4b0d3255bfef95601890afd80709" = mustGetSha1 f.contents) :=
  ⟨by decide,
   filesInDirectory_invariants "public" [FsFile.mk "index.html" []] "/index.html"
     "da39a3ee5e6b4b0d3255bfef95601890afd80709" (by decide)⟩

/-- C10: when the walked directory holds several files with identical byte
contents, the digest→entry reverse map keeps exactly one entry for the
shared digest — the entry of the file visited last among those with that
digest (later visits overwrite earlier ones) — while the path→digest
forward map still maps every such path to the shared digest. The walk
order is the list order; `fj` is the last file whose digest is the shared
one, `fi` an earlier file with the same contents. -/
theorem filesInDirectory_duplicateContents (dir : String) (l₁ l₂ : List FsFile)
    (fi fj : FsFile) (hfi : fi ∈ l₁) (hc : fi.contents = fj.contents)
    (hrel : ((l₁ ++ fj :: l₂).map FsFile.rel).Nodup)
    (hlast : ∀ g ∈ l₂, mustGetSha1 g.contents ≠ mustGetSha1 fj.contents) :
    mapGet (filesInDirectory dir (l₁ ++ fj :: l₂)).2 (mustGetSha1 fi.contents) =
      some ⟨dir ++ "/" ++ fj.rel, "/" ++ fj.rel⟩ ∧
    ((filesInDirectory dir (l₁ ++ fj :: l₂)).2.filter
        (fun p => p.1 == mustGetSha1 fi.contents)).length = 1 ∧
    mapGet (filesInDirectory dir (l₁ ++ fj :: l₂)).1 ("/" ++ fi.rel) =
      some (mustGetSha1 fi.contents) ∧
    mapGet (filesInDirectory dir (l₁ ++ fj :: l₂)).1 ("/" ++ fj.rel) =
      some (mustGetSha1 fi.contents) := by
  have hd : mustGetSha1 fi.contents = mustGetSha1 fj.contents := by rw [hc]
  have hmemj : fj ∈ l₁ ++ fj :: l₂ := List.mem_append_right _ (List.mem_cons_self _ _)
  have hmemi : fi ∈ l₁ ++ fj :: l₂ := List.mem_append_left _ hfi
  have hrevnodup : ((l₁ ++ fj :: l₂).reverse.map FsFile.rel).Nodup := by
    rw [List.map_reverse, List.nodup_reverse]
    exact hrel
  have hrev : mapGet (filesInDirectory dir (l₁ ++ fj :: l₂)).2 (mustGetSha1 fi.contents) =
      some ⟨dir ++ "/" ++ fj.rel, "/" ++ fj.rel⟩ := by
    unfold filesInDirectory
    rw [walk_rev_lookup]
    have hld : lastWithDigest (l₁ ++ fj :: l₂) (mustGetSha1 fi.contents) = some fj := by
      unfold lastWithDigest
      rw [List.reverse_append, List.reverse_cons, List.find?_append, List.find?_append]
      have hnone : l₂.reverse.find?
          (fun g => mustGetSha1 g.contents == mustGetSha1 fi.contents) = none := by
        rw [List.find?_eq_none]
        intro g hg hpred
        rw [beq_iff_eq] at hpred
        exact hlast g (List.mem_reverse.mp hg) (hpred.trans hd)
      have hself : List.find?
          (fun g => mustGetSha1 g.contents == mustGetSha1 fi.contents) [fj] = some fj :=
        List.find?_cons_of_pos _ (by rw [hd]; exact beq_self_eq_true _)
      rw [hnone, hself]
      rfl
    rw [hld]
  have hnodupkeys : ((filesInDirectory dir (l₁ ++ fj :: l₂)).2.map Prod.fst).Nodup := by
    unfold filesInDirectory
    exact walk_keys_nodup dir _ ([], []) (by simp)
  have hfwdi : mapGet (filesInDirectory dir (l₁ ++ fj :: l₂)).1 ("/" ++ fi.rel) =
      some (mustGetSha1 fi.contents) := by
    unfold filesInDirectory
    rw [walk_fwd_lookup]
    have hlk : lastWithKey (l₁ ++ fj :: l₂) ("/" ++ fi.rel) = some fi := by
      unfold lastWithKey
      exact find?_key_of_nodup _ fi hrevnodup (List.mem_reverse.mpr hmemi)
    rw [hlk]
  have hfwdj : mapGet (filesInDirectory dir (l₁ ++ fj :: l₂)).1 ("/" ++ fj.rel) =
      some (mustGetSha1 fi.contents) := by
    unfold filesInDirectory
    rw [walk_fwd_lookup]
    have hlk : lastWithKey (l₁ ++ fj :: l₂) ("/" ++ fj.rel) = some fj := by
      unfold lastWithKey
      exact find?_key_of_nodup _ fj hrevnodup (List.mem_reverse.mpr hmemj)
    rw [hlk, hd]
  exact ⟨hrev, count_key_eq_one _ _ _ hnodupkeys hrev, hfwdi, hfwdj⟩

/-- Witness for C10: two empty files; the reverse map keeps the later
file's entry, both forward keys map to the shared digest. -/
theorem filesInDirectory_duplicateContents_witness :
    (FsFile.mk "a.txt" [] ∈ [FsFile.mk "a.txt" []] ∧
      ([[FsFile.mk "a.txt" []], [FsFile.mk "b.txt" []]].flatten.map FsFile.rel).Nodup) ∧
    (mapGet (filesInDirectory "public"
        ([FsFile.mk "a.txt" []] ++ FsFile.mk "b.txt" [] :: [])).2
        (mustGetSha1 (FsFile.mk "a.txt" []).contents) =
      some ⟨"public" ++ "/" ++ "b.txt", "/" ++ "b.txt"⟩ ∧
    ((filesInDirectory "public" ([FsFile.mk "a.txt" []] ++ FsFile.mk "b.txt" [] :: [])).2.filter
        (fun p => p.1 == mustGetSha1 (FsFile.mk "a.txt" []).contents)).length = 1 ∧
    mapGet (filesInDirectory "public"
        ([FsFile.mk "a.txt" []] ++ FsFile.mk "b.txt" [] :: [])).1 ("/" ++ "a.txt") =
      some (mustGetSha1 (FsFile.mk "a.txt" []).contents) ∧
    mapGet (filesInDirectory "public"
        ([FsFile.mk "a.txt" []] ++ FsFile.mk "b.txt" [] :: [])).1 ("/" ++ "b.txt") =
      some (mustGetSha1 (FsFile.mk "a.txt" []).contents)) :=
  ⟨⟨by decide, by decide⟩,
   filesInDirectory_duplicateContents "public" [FsFile.mk "a.txt" []] []
     (FsFile.mk "a.txt" []) (FsFile.mk "b.txt" []) (by decide) rfl (by decide)
     (by decide)⟩

/-- C1: a failing upload job is retried iff the error message contains
GOAWAY: a non-GOAWAY error is returned after exactly one attempt (attempt
trace `[0]`); a GOAWAY error triggers a retry whose first backoff delay is
5 seconds (the trace starts `0, 5, …`); under persistent GOAWAY errors the
Fibonacci schedule runs attempts at 0, 5, 10, 20, 35, 60 and 90 seconds,
stops once the 90-second window is exhausted, and the job returns the last
GOAWAY error (wrapped). -/
theorem wrapUploadJob_retry_spec (attempts : Nat → Option String) (e : String)
    (h0 : attempts 0 = some e) :
    (isRetryableErr e = false →
      wrapUploadJob none attempts = ([0], some ("Unable to upload file: " ++ e))) ∧
    (isRetryableErr e = true →
      ∃ ts r, wrapUploadJob none attempts = (0 :: 5 :: ts, r)) ∧
    ((∀ n, n < 7 → ∃ en, attempts n = some en ∧ isRetryableErr en = true) →
      ∃ e6, attempts 6 = some e6 ∧
        wrapUploadJob none attempts =
          ([0, 5, 10, 20, 35, 60, 90], some ("Unable to upload file: " ++ e6))) := by
  refine ⟨?_, ?_, ?_⟩
  · intro he
    unfold wrapUploadJob
    rw [show (100 : Nat) = 99 + 1 from rfl,
      retryTraceGo_nonretryable attempts 99 (5, 0) 0 0 e h0 he]
    rfl
  · intro he
    obtain ⟨ts, hts⟩ := retryTraceGo_head attempts 99 (0, 5) 5 1
    refine ⟨ts, (retryTraceGo attempts 99 (0, 5) 5 1).2.map
      (fun err => "Unable to upload file: " ++ err), ?_⟩
    unfold wrapUploadJob
    rw [show (100 : Nat) = 99 + 1 from rfl,
      retryTraceGo_retry attempts 99 (5, 0) 0 0 e h0 he (by norm_num)]
    norm_num [hts]
  · intro h
    obtain ⟨e0, ha0, hr0⟩ := h 0 (by norm_num)
    obtain ⟨e1, ha1, hr1⟩ := h 1 (by norm_num)
    obtain ⟨e2, ha2, hr2⟩ := h 2 (by norm_num)
    obtain ⟨e3, ha3, hr3⟩ := h 3 (by norm_num)
    obtain ⟨e4, ha4, hr4⟩ := h 4 (by norm_num)
    obtain ⟨e5, ha5, hr5⟩ := h 5 (by norm_num)
    obtain ⟨e6, ha6, hr6⟩ := h 6 (by norm_num)
    have c6 : retryTraceGo attempts 94 (25, 40) 90 6 = ([90], some e6) := by
      rw [show (94 : Nat) = 93 + 1 from rfl]
      exact retryTraceGo_stop attempts 93 (25, 40) 90 6 e6 ha6 hr6 (by norm_num)
    have c5 : retryTraceGo attempts 95 (15, 25) 60 5 = ([60, 90], some e6) := by
      rw [show (95 : Nat) = 94 + 1 from rfl,
        retryTraceGo_retry attempts 94 (15, 25) 60 5 e5 ha5 hr5 (by norm_num)]
      norm_num [c6]
    have c4 : retryTraceGo attempts 96 (10, 15) 35 4 = ([35, 60, 90], some e6) := by
      rw [show (96 : Nat) = 95 + 1 from rfl,
        retryTraceGo_retry attempts 95 (10, 15) 35 4 e4 ha4 hr4 (by norm_num)]
      norm_num [c5]
    have c3 : retryTraceGo attempts 97 (5, 10) 20 3 = ([20, 35, 60, 90], some e6) := by
      rw [show (97 : Nat) = 96 + 1 from rfl,
        retryTraceGo_retry attempts 96 (5, 10) 20 3 e3 ha3 hr3 (by norm_num)]
      norm_num [c4]
    have c2 : retryTraceGo attempts 98 (5, 5) 10 2 = ([10, 20, 35, 60, 90], some e6) := by
      rw [show (98 : Nat) = 97 + 1 from rfl,
        retryTraceGo_retry attempts 97 (5, 5) 10 2 e2 ha2 hr2 (by norm_num)]
      norm_num [c3]
    have c1 : retryTraceGo attempts 99 (0, 5) 5 1 = ([5, 10, 20, 35, 60, 90], some e6) := by
      rw [show (99 : Nat) = 98 + 1 from rfl,
        retryTraceGo_retry attempts 98 (0, 5) 5 1 e1 ha1 hr1 (by norm_num)]
      norm_num [c2]
    have c0 : retryTraceGo attempts 100 (5, 0) 0 0 =
        ([0, 5, 10, 20, 35, 60, 90], some e6) := by
      rw [show (100 : Nat) = 99 + 1 from rfl,
        retryTraceGo_retry attempts 99 (5, 0) 0 0 e0 ha0 hr0 (by norm_num)]
      norm_num [c1]
    refine ⟨e6, ha6, ?_⟩
    unfold wrapUploadJob
    rw [c0]
    rfl

/-- Witness for C1: a non-GOAWAY transport error is returned after exactly
one upload attempt. -/
theorem wrapUploadJob_retry_spec_witness :
    attemptsRefused 0 = some "connection refused" ∧
    isRetryableErr "connection refused" = false ∧
    wrapUploadJob none attemptsRefused =
      ([0], some ("Unable to upload file: " ++ "connection refused")) :=
  ⟨rfl, by decide,
   (wrapUploadJob_retry_spec attemptsRefused "connection refused" rfl).1 (by decide)⟩

/-- C3: when the resolver reports not-found, `deploy` fails with
"No site found for <name>" and the trace holds no walk and no
deploy-creation phase: the failure precedes fingerprinting and any deploy. -/
theorem deployRun_siteNotFound (cfg : Config) (env : Env) (fuel : Nat)
    (h : findSite env.listSites cfg.site fuel = Except.ok none) :
    deployRun cfg env fuel = (Outcome.err ("No site found for " ++ cfg.site), []) ∧
    (∀ ev ∈ (deployRun cfg env fuel).2,
      (∀ d, ev ≠ Event.walkDir d) ∧
      (∀ sid t a b dr fl, ev ≠ Event.createDeploy sid t a b dr fl)) := by
  have h1 : deployRun cfg env fuel = (Outcome.err ("No site found for " ++ cfg.site), []) := by
    unfold deployRun
    rw [h]
  refine ⟨h1, ?_⟩
  rw [h1]
  intro ev hev
  simp at hev

/-- Witness for C3: a listing whose first page is empty makes the run fail
with the not-found error before any later phase. -/
theorem deployRun_siteNotFound_witness :
    findSite envNotFound.listSites cfgW.site 3 = Except.ok none ∧
    deployRun cfgW envNotFound 3 = (Outcome.err ("No site found for " ++ cfgW.site), []) :=
  ⟨by decide, (deployRun_siteNotFound cfgW envNotFound 3 (by decide)).1⟩

/-- C6 counterexample: with an empty walked directory and a prepared deploy
requiring the digest "deadbeef", the required digest is not a key of the
reverse map, yet the run does not fail with a clear error: it crashes (the
producer loop dereferences the nil map entry), refuting the claim that a
defensive check fails the run instead of crashing. -/
theorem deployRun_missingDigest_panics :
    mapGet (filesInDirectory cfgW.directory envMissingDigest.fs).2 "deadbeef" = none ∧
    envMissingDigest.fetchPrepared 0 =
      Except.ok (Deploy.mk "d9" "prepared" "https://x" ["deadbeef"]) ∧
    (deployRun cfgW envMissingDigest 3).1 =
      Outcome.panicked "runtime error: invalid memory address or nil pointer dereference" := by
  refine ⟨by decide, by decide, by decide⟩

/-- C6 (amended): a required digest missing from the reverse map makes the
enqueue loop dereference a nil map entry, so the run crashes with a runtime
panic rather than failing with a clear error; when every required digest is
known, exactly one upload job is enqueued per required digest,
reverse-mapped to its file entry. -/
theorem enqueueRequired_spec (m : List (String × ShaData)) (req : List String) :
    ((∃ sha ∈ req, mapGet m sha = none) → enqueueRequired m req = none) ∧
    ((∀ sha ∈ req, (mapGet m sha).isSome) →
      enqueueRequired m req = some (req.filterMap (mapGet m)) ∧
      (req.filterMap (mapGet m)).length = req.length) ∧
    (∀ cfg env fuel site dep prep s1,
      findSite env.listSites cfg.site fuel = Except.ok (some site) →
      env.walkErr = none →
      env.createDeploy site.id cfg.title true cfg.branch cfg.draft
          (filesInDirectory cfg.directory env.fs).1 = Except.ok dep →
      getDeploy env.fetchPrepared "prepared" fuel = Except.ok (prep, s1) →
      enqueueRequired (filesInDirectory cfg.directory env.fs).2 prep.required = none →
      (deployRun cfg env fuel).1 =
        Outcome.panicked "runtime error: invalid memory address or nil pointer dereference") := by
  refine ⟨?_, ?_, ?_⟩
  · intro h
    induction req with
    | nil => obtain ⟨sha, hmem, _⟩ := h; cases hmem
    | cons sha rest ih =>
      cases hm : mapGet m sha with
      | none => simp [enqueueRequired, hm]
      | some entry =>
        obtain ⟨sha', hmem', hm'⟩ := h
        cases List.mem_cons.mp hmem' with
        | inl hh =>
          subst hh
          rw [hm] at hm'
          cases hm'
        | inr hh =>
          have : enqueueRequired m rest = none := ih ⟨sha', hh, hm'⟩
          simp [enqueueRequired, hm, this]
  · intro h
    induction req with
    | nil => exact ⟨rfl, rfl⟩
    | cons sha rest ih =>
      have hsome := h sha (List.mem_cons_self _ _)
      cases hm : mapGet m sha with
      | none => rw [hm] at hsome; cases hsome
      | some entry =>
        have hrest := ih (fun s hs => h s (List.mem_cons_of_mem _ hs))
        refine ⟨?_, ?_⟩
        · simp [enqueueRequired, hm, hrest.1, List.filterMap_cons, hm]
        · simp [List.filterMap_cons, hm, hrest.2]
  · intro cfg env fuel site dep prep s1 h1 h2 h3 h4 h5
    unfold deployRun
    rw [h1, h2]
    simp only [h3, h4, h5]

/-- Witness for C6 (amended): the digest "deadbeef" is required but absent
from an empty reverse map, so the producer loop hits the nil entry. -/
theorem enqueueRequired_spec_witness :
    (∃ sha ∈ ["deadbeef"], mapGet ([] : List (String × ShaData)) sha = none) ∧
    enqueueRequired ([] : List (String × ShaData)) ["deadbeef"] = none :=
  ⟨⟨"deadbeef", by decide, rfl⟩,
   (enqueueRequired_spec [] ["deadbeef"]).1 ⟨"deadbeef", by decide, rfl⟩⟩

/-- C7: the deploy is created with `async = true`, the configured draft
flag, the configured alias as branch, the configured title, and the walk's
path→digest map as files; when the create response is already "ready" the
orchestrator logs and still runs the prepared-poll, the upload phase and
the ready-poll, and the run completes successfully. -/
theorem deployRun_createParams_readyContinues (cfg : Config) (env : Env) (fuel : Nat)
    (site : Site) (dep prep rd : Deploy) (s1 s2 : List Nat) (jobs : List ShaData)
    (h1 : findSite env.listSites cfg.site fuel = Except.ok (some site))
    (h2 : env.walkErr = none)
    (h3 : env.createDeploy site.id cfg.title true cfg.branch cfg.draft
      (filesInDirectory cfg.directory env.fs).1 = Except.ok dep)
    (h4 : dep.state = "ready")
    (h5 : getDeploy env.fetchPrepared "prepared" fuel = Except.ok (prep, s1))
    (h6 : enqueueRequired (filesInDirectory cfg.directory env.fs).2 prep.required = some jobs)
    (h7 : jobs.findSome? env.runJob = none)
    (h8 : getDeploy env.fetchReady "ready" fuel = Except.ok (rd, s2)) :
    deployRun cfg env fuel =
      (Outcome.ok dep.deployURL,
       [Event.walkDir cfg.directory,
        Event.createDeploy site.id cfg.title true cfg.branch cfg.draft
          (filesInDirectory cfg.directory env.fs).1,
        Event.logReady dep.deployURL,
        Event.pollDeploy dep.id "prepared"]
       ++ jobs.map (fun j => Event.enqueue j.realfilename j.uri)
       ++ [Event.uploadPhaseDone, Event.pollDeploy dep.id "ready"]) := by
  unfold deployRun
  rw [h1, h2]
  have hds : (dep.state == "ready") = true := beq_iff_eq.mpr h4
  simp only [h3, h5, h6, h7, h8, hds]
  simp

/-- Witness for C7: a create response already "ready" with nothing
required; the run logs, polls, uploads nothing and completes. -/
theorem deployRun_createParams_readyContinues_witness :
    findSite envReadyCreate.listSites cfgW.site 3 = Except.ok (some (Site.mk "i9" "mysite")) ∧
    deployRun cfgW envReadyCreate 3 =
      (Outcome.ok "https://x",
       [Event.walkDir "public",
        Event.createDeploy "i9" "title" true "alias" true [],
        Event.logReady "https://x",
        Event.pollDeploy "d9" "prepared"]
       ++ ([] : List ShaData).map (fun j => Event.enqueue j.realfilename j.uri)
       ++ [Event.uploadPhaseDone, Event.pollDeploy "d9" "ready"]) :=
  ⟨by decide,
   deployRun_createParams_readyContinues cfgW envReadyCreate 3 (Site.mk "i9" "mysite")
     (Deploy.mk "d9" "ready" "https://x" []) (Deploy.mk "d9" "prepared" "https://x" [])
     (Deploy.mk "d9" "ready" "https://x" []) [] [] []
     (by decide) (by decide) (by decide) (by decide) (by decide) (by decide)
     (by decide) (by decide)⟩

/-- C8: in every run of the upload pool, exactly `queueSize` workers are
spawned on a channel of capacity `queueSize`; in every reachable state the
buffered queue holds at most `queueSize` jobs and at most `queueSize`
uploads are in flight; and the orchestrator is past `wg.Wait()` (about to
poll for "ready") only when every worker has finished. -/
theorem pool_bounded (queueSize : Nat) (jobs : List ShaData) (s : PoolState)
    (h : PoolReach queueSize (poolInit queueSize jobs) s) :
    (poolInit queueSize jobs).workers.length = queueSize ∧
    s.workers.length = queueSize ∧
    s.queue.length ≤ queueSize ∧
    inFlight s ≤ queueSize ∧
    (s.afterWait = true → ∀ w ∈ s.workers, w = WStatus.done) := by
  have main : s.workers.length = queueSize ∧ s.queue.length ≤ queueSize ∧
      (s.afterWait = true → ∀ w ∈ s.workers, w = WStatus.done) := by
    induction h with
    | refl => simp [poolInit]
    | step hr hstep ih =>
      cases hstep with
      | send q ws j js hq =>
        refine ⟨ih.1, ?_, ?_⟩
        · show (q ++ [j]).length ≤ queueSize
          rw [List.length_append, List.length_singleton]
          omega
        · intro hw
          exact Bool.noConfusion (show false = true from hw)
      | closeChan q ws =>
        exact ⟨ih.1, ih.2.1, fun hw => Bool.noConfusion (show false = true from hw)⟩
      | take q c ws js j i hi =>
        refine ⟨?_, ?_, ?_⟩
        · show (ws.set i (WStatus.busy j)).length = queueSize
          rw [List.length_set]
          exact ih.1
        · show q.length ≤ queueSize
          have hlen : (j :: q).length ≤ queueSize := ih.2.1
          rw [List.length_cons] at hlen
          omega
        · intro hw
          exact Bool.noConfusion (show false = true from hw)
      | finish q c ws js j i hi =>
        refine ⟨?_, ih.2.1, ?_⟩
        · show (ws.set i WStatus.idle).length = queueSize
          rw [List.length_set]
          exact ih.1
        · intro hw
          exact Bool.noConfusion (show false = true from hw)
      | exitWorker ws js i hi =>
        refine ⟨?_, ?_, ?_⟩
        · show (ws.set i WStatus.done).length = queueSize
          rw [List.length_set]
          exact ih.1
        · exact Nat.zero_le _
        · intro hw
          exact Bool.noConfusion (show false = true from hw)
      | waitDone q ws js hall =>
        exact ⟨ih.1, ih.2.1, fun _ => hall⟩
  refine ⟨by simp [poolInit], main.1, main.2.1, ?_, main.2.2⟩
  calc inFlight s ≤ s.workers.length := List.length_filter_le _ _
    _ = queueSize := main.1

/-- Witness for C8: the initial state of a two-worker pool is reachable and
satisfies every bound. -/
theorem pool_bounded_witness :
    PoolReach 2 (poolInit 2 []) (poolInit 2 []) ∧
    ((poolInit 2 []).workers.length = 2 ∧ (poolInit 2 []).workers.length = 2 ∧
      (poolInit 2 []).queue.length ≤ 2 ∧ inFlight (poolInit 2 []) ≤ 2 ∧
      ((poolInit 2 []).afterWait = true → ∀ w ∈ (poolInit 2 []).workers, w = WStatus.done)) :=
  ⟨PoolReach.refl, pool_bounded 2 [] (poolInit 2 []) PoolReach.refl⟩

/-- C4: the poller's fetch errors are fatal; it returns the first snapshot
whose state equals the target or equals "ready" (even when "ready" was not
requested), with a 1-second sleep after each non-matching fetch; hence
every snapshot it returns has state equal to the target or to "ready". -/
theorem getDeploy_spec (fetch : Nat → Except String Deploy) (wantedStatus : String) :
    (∀ fuel, getDeploy fetch wantedStatus fuel = getDeployGo fetch wantedStatus fuel 0) ∧
    (∀ fuel n e, fetch n = Except.error e →
      getDeployGo fetch wantedStatus (fuel + 1) n =
        Except.error ("Unable to check deploy: " ++ e)) ∧
    (∀ fuel n d, fetch n = Except.ok d → d.state = wantedStatus ∨ d.state = "ready" →
      getDeployGo fetch wantedStatus (fuel + 1) n = Except.ok (d, List.replicate n 1)) ∧
    (∀ fuel n d, fetch n = Except.ok d → d.state ≠ wantedStatus → d.state ≠ "ready" →
      getDeployGo fetch wantedStatus (fuel + 1) n =
        getDeployGo fetch wantedStatus fuel (n + 1)) ∧
    (∀ fuel n d s, getDeployGo fetch wantedStatus fuel n = Except.ok (d, s) →
      d.state = wantedStatus ∨ d.state = "ready") := by
  refine ⟨fun _ => rfl, ?_, ?_, ?_, ?_⟩
  · intro fuel n e h
    simp [getDeployGo, h]
  · intro fuel n d h hor
    rcases hor with hw | hr
    · simp [getDeployGo, h, hw]
    · by_cases hw : d.state = wantedStatus
      · simp [getDeployGo, h, hw]
      · have hw' : (d.state == wantedStatus) = false := beq_eq_false_iff_ne.mpr hw
        simp [getDeployGo, h, hw', hr]
  · intro fuel n d h hw hr
    have hw' : (d.state == wantedStatus) = false := beq_eq_false_iff_ne.mpr hw
    have hr' : (d.state == "ready") = false := beq_eq_false_iff_ne.mpr hr
    simp [getDeployGo, h, hw', hr']
  · intro fuel
    induction fuel with
    | zero => intro n d s h; simp [getDeployGo] at h
    | succ fuel ih =>
      intro n d s h
      cases hf : fetch n with
      | error e => simp [getDeployGo, hf] at h
      | ok dep =>
        by_cases hw : dep.state = wantedStatus
        · have hw' : (dep.state == wantedStatus) = true := beq_iff_eq.mpr hw
          simp [getDeployGo, hf, hw'] at h
          left
          rw [← h.1]
          exact hw
        · have hw' : (dep.state == wantedStatus) = false := beq_eq_false_iff_ne.mpr hw
          by_cases hr : dep.state = "ready"
          · have hr' : (dep.state == "ready") = true := beq_iff_eq.mpr hr
            simp [getDeployGo, hf, hw', hr'] at h
            right
            rw [← h.1]
            exact hr
          · have hr' : (dep.state == "ready") = false := beq_eq_false_iff_ne.mpr hr
            simp [getDeployGo, hf, hw', hr'] at h
            exact ih (n + 1) d s h

/-- Witness for C4: after two `uploading` snapshots (two 1-second sleeps)
the poller returns the `prepared` snapshot; the returned state is the
target or "ready". -/
theorem getDeploy_spec_witness :
    fetchW 2 = Except.ok (Deploy.mk "d1" "prepared" "u" []) ∧
    getDeployGo fetchW "prepared" (7 + 1) 2 =
      Except.ok (Deploy.mk "d1" "prepared" "u" [], List.replicate 2 1) ∧
    ((Deploy.mk "d1" "prepared" "u" []).state = "prepared" ∨
      (Deploy.mk "d1" "prepared" "u" []).state = "ready") :=
  ⟨by decide,
   (getDeploy_spec fetchW "prepared").2.2.1 7 2 (Deploy.mk "d1" "prepared" "u" [])
     (by decide) (Or.inl (by decide)),
   (getDeploy_spec fetchW "prepared").2.2.2.2 8 2 (Deploy.mk "d1" "prepared" "u" [])
     (List.replicate 2 1)
     ((getDeploy_spec fetchW "prepared").2.2.1 7 2 (Deploy.mk "d1" "prepared" "u" [])
       (by decide) (Or.inl (by decide)))⟩

end NetlifyDeploy
